import Mathlib

/-!
Verification development for the lnav structural-discovery engine
(`data_parser` in src/src/base/fs_util.hh): the bracket-grouping /
format-discovery pass (`discover_format`) and the recursive key/value
pairing pass (`pairup`), shallowly embedded over lists.

Modelling conventions:
* `std::list<element>` becomes `List element`; `splice`/`push_back` become
  list concatenation, with one exception noted at `resize1`.
* The C++ `element::e_sub_elements` is a nullable pointer to a list; in
  every reachable state of the program it is either NULL or a non-empty
  list (every assignment site is guarded by a non-emptiness check), so it
  is embedded as a plain `List element` with `[]` standing for NULL.
* The SHA-1 context is embedded as the list of strings fed to
  `SHA_Update`, in order; `SHA_Init` resets it to `[]`.  The digest
  primitive itself is out of scope (an external library), so the schema
  id is identified with the fed byte sequence: equal feeds give equal
  digests.
* Captures (`pcre_context::capture_t`) are pairs of natural offsets; the
  scanner asserts they are non-negative.
-/

/-- Token kinds used by `data_parser` (from data_scanner.hh, which is the
external tokenizer interface; the constructors below are exactly the kinds
the parser code in fs_util.hh mentions, plus the word/any content kinds the
spec lists for the scanner).  Each closing bracket kind directly follows
its opening kind, which is the layout the C++ relies on with the
`e_token - 1` comparison. -/
inductive data_token_t : Type where
  | DT_INVALID
  | DT_WHITE
  | DT_SEPARATOR
  | DT_COMMA
  | DT_SEMI
  | DT_LPAREN
  | DT_RPAREN
  | DT_LANGLE
  | DT_RANGLE
  | DT_LCURLY
  | DT_RCURLY
  | DT_LSQUARE
  | DT_RSQUARE
  | DT_EQUALS
  | DT_COLON
  | DT_NUMBER
  | DT_SYMBOL
  | DT_HEX_NUMBER
  | DT_OCTAL_NUMBER
  | DT_VERSION_NUMBER
  | DT_QUOTED_STRING
  | DT_IPV4_ADDRESS
  | DT_IPV6_ADDRESS
  | DT_MAC_ADDRESS
  | DT_UUID
  | DT_URL
  | DT_PATH
  | DT_TIME
  | DT_PERCENTAGE
  | DT_WORD
  | DT_ANY
  | DNT_GROUP
  | DNT_KEY
  | DNT_VALUE
  | DNT_PAIR
deriving DecidableEq, Repr

open data_token_t

/-- Capture: half-open byte-offset interval into the input line
(pcre_context::capture_t with the two int offsets, which the parser
asserts to be non-negative). -/
structure capture_t : Type where
  c_begin : Nat
  c_end : Nat
deriving DecidableEq, Repr

/-- The element tree node: capture, token kind and sub-element list
(the C++ nullable sub-element pointer, NULL embedded as `[]`; see the
file header). -/
inductive element : Type where
  | mk (e_capture : capture_t) (e_token : data_token_t)
       (e_sub_elements : List element)
deriving Repr

instance : Inhabited element := ⟨.mk ⟨0, 0⟩ DT_INVALID []⟩

mutual

def elemDecEq : (a b : element) → Decidable (a = b)
  | .mk c t s, .mk c' t' s' =>
      match decEq c c' with
      | isFalse h => isFalse (fun hh => by cases hh; exact h rfl)
      | isTrue h1 =>
          match decEq t t' with
          | isFalse h => isFalse (fun hh => by cases hh; exact h rfl)
          | isTrue h2 =>
              match elemDecEqL s s' with
              | isFalse h => isFalse (fun hh => by cases hh; exact h rfl)
              | isTrue h3 => isTrue (by rw [h1, h2, h3])

def elemDecEqL : (a b : List element) → Decidable (a = b)
  | [], [] => isTrue rfl
  | [], _ :: _ => isFalse (by intro h; cases h)
  | _ :: _, [] => isFalse (by intro h; cases h)
  | a :: as, b :: bs =>
      match elemDecEq a b with
      | isFalse h => isFalse (fun hh => by cases hh; exact h rfl)
      | isTrue h1 =>
          match elemDecEqL as bs with
          | isFalse h => isFalse (fun hh => by cases hh; exact h rfl)
          | isTrue h2 => isTrue (by rw [h1, h2])

end

instance : DecidableEq element := elemDecEq

def element.e_capture : element → capture_t
  | .mk c _ _ => c

def element.e_token : element → data_token_t
  | .mk _ t _ => t

def element.e_sub_elements : element → List element
  | .mk _ _ s => s

/-- Modelled from the spec: the default-constructed `element()` sets
`e_token = DT_INVALID` and a NULL sub-element list (fs_util.hh line 221);
its capture is default-constructed from pcrepp.hh, which is not part of
the sources here, so per the spec (zero-length spans are valid synthetic
spans) it is modelled as the zero-length span at offset 0. -/
def defaultElement : element := .mk ⟨0, 0⟩ DT_INVALID []

/-- The strip template (fs_util.hh lines 176-185) specialised to a token
predicate: drop matching elements from the front, then from the back. -/
def strip (t : data_token_t) (l : List element) : List element :=
  let f := l.dropWhile (fun e => e.e_token = t)
  (f.reverse.dropWhile (fun e => e.e_token = t)).reverse

/-- value.remove_if(element_if(DT_COMMA)) from fs_util.hh line 436. -/
def removeComma (l : List element) : List element :=
  l.filter (fun e => ¬ e.e_token = DT_COMMA)

/-- The element(subs, token, assign_subs_elements) constructor
(fs_util.hh lines 222-233): capture spans from the first sub-element's
begin to the last sub-element's end; the sub-elements are attached only
when `assign` is set (the DNT_KEY nodes are built with assign = false).
The C++ constructor dereferences front/back, so it is only ever called on
non-empty lists; the empty case is an unreachable guard. -/
def mkNode (tok : data_token_t) (assign : Bool) : List element → element
  | [] => defaultElement
  | e :: rest =>
      .mk ⟨e.e_capture.c_begin, ((e :: rest).getLastD e).e_capture.c_end⟩
        tok (if assign then e :: rest else [])

/-- element::assign_elements + update_capture (fs_util.hh lines 266-283):
replace the sub-elements and recompute the capture from the new
first/last sub-element. -/
def assignElements (e : element) : List element → element
  | [] => e
  | s :: rest =>
      .mk ⟨s.e_capture.c_begin, ((s :: rest).getLastD s).e_capture.c_end⟩
        e.e_token (s :: rest)

/-- pcre_input::get_substr on a capture (used by
data_parser::get_element_string, fs_util.hh lines 693-698): the bytes of
the input line covered by the capture. -/
def getSubstr (input : List Char) (cap : capture_t) : List Char :=
  (input.drop cap.c_begin).take (cap.c_end - cap.c_begin)

/-- The format descriptor (fs_util.hh lines 194-202): the appender and
terminator token kinds used by the pairing pass. -/
structure data_format : Type where
  df_appender : data_token_t
  df_terminator : data_token_t
deriving DecidableEq, Repr

/-- Classifier states (fs_util.hh lines 187-192). -/
inductive data_format_state_t : Type where
  | DFS_ERROR
  | DFS_INIT
  | DFS_KEY
  | DFS_VALUE
deriving DecidableEq, Repr

open data_format_state_t

/-- Which of the three static formats discover_format selected (the C++
records this as a pointer to one of the three static constants). -/
inductive format_sel : Type where
  | FSEMI
  | FCOMMA
  | FPLAIN
deriving DecidableEq, Repr

open format_sel

/-- Modelled from the spec: the three static format constants
FORMAT_SEMI / FORMAT_COMMA / FORMAT_PLAIN are defined in data_parser.cc,
which is not among the sources; per spec section 3, SEMI and COMMA both
use the assignment-like appender and the colon-like terminator, and PLAIN
uses the invalid sentinel for both. -/
def FORMAT_SEMI : data_format := ⟨DT_EQUALS, DT_COLON⟩

/-- Modelled from the spec: see FORMAT_SEMI. -/
def FORMAT_COMMA : data_format := ⟨DT_EQUALS, DT_COLON⟩

/-- Modelled from the spec: see FORMAT_SEMI. -/
def FORMAT_PLAIN : data_format := ⟨DT_INVALID, DT_INVALID⟩

def format_of : format_sel → data_format
  | FSEMI => FORMAT_SEMI
  | FCOMMA => FORMAT_COMMA
  | FPLAIN => FORMAT_PLAIN

/-- The C++ default-constructed-element quirk behind resize:
`key_comps.resize(1)` in the appender branch (fs_util.hh line 404).  Note
the preceding `key_comps.splice(key_comps.begin(), key_comps, key_comps.end())`
(lines 401-403) passes the end iterator as the element to move, which both
mainstream std::list implementations turn into a no-op (the transfer is
skipped when the destination position equals the successor of the moved
node, and the successor of the sentinel is the destination begin), so the
resize keeps the FIRST remaining element, and on an empty list it inserts
one default-constructed element. -/
def resize1 : List element → List element
  | [] => [defaultElement]
  | e :: _ => [e]

/-- The backward key-marker scan of fs_util.hh lines 388-420, as a fuel
recursion: `rscanGo fmt kc n` examines indices n-1, n-2, ..., 1 of `kc`
(index 0 is never examined, because the C++ loop stops when the iterator
reaches begin()), returning the first index from the end whose token is
the format appender (flag true) or terminator (flag false), the appender
being compared first at each element. -/
def rscanGo (fmt : data_format) (kc : List element) : Nat → Option (Nat × Bool)
  | 0 => none
  | 1 => none
  | (n + 2) =>
      match kc[n + 1]? with
      | none => rscanGo fmt kc (n + 1)
      | some e =>
          if e.e_token = fmt.df_appender then some (n + 1, true)
          else if e.e_token = fmt.df_terminator then some (n + 1, false)
          else rscanGo fmt kc (n + 1)

def rscan (fmt : data_format) (kc : List element) : Option (Nat × Bool) :=
  rscanGo fmt kc kc.length

/-- State of the main pairup loop: the emitted Key/Value stack and the
key-candidate buffer (the `value` buffer is empty between separators, so
it is not part of the state). -/
structure LoopSt where
  el_stack : List element
  key_comps : List element
deriving DecidableEq, Repr

/-- Lines 435-445 of fs_util.hh: strip/clean the value and key buffers
and push the surviving DNT_VALUE (sub-elements attached) and DNT_KEY
(sub-elements not attached) onto the stack, value first. -/
def finishSep (stack kc value : List element) : LoopSt :=
  let v := removeComma (strip DT_WHITE value)
  let stack1 := if v = [] then stack else stack ++ [mkNode DNT_VALUE true v]
  let k := strip DT_WHITE kc
  let stack2 := if k = [] then stack1 else stack1 ++ [mkNode DNT_KEY false k]
  ⟨stack2, []⟩

/-- Separator handling, fs_util.hh lines 387-446: run the backward scan;
on an appender hit the buffer up to and including the appender is spliced
into the value and the remainder goes through the resize quirk; on a
terminator hit the buffer before the terminator becomes the value, the
terminator is dropped and the whitespace-stripped rest becomes the key;
otherwise, when the stack already has an entry and the buffer is
non-empty, the last buffer element becomes the key and the rest the
value. -/
def handleSep (fmt : data_format) (st : LoopSt) : LoopSt :=
  let kc := st.key_comps
  match rscan fmt kc with
  | some (i, true) =>
      finishSep st.el_stack (resize1 (kc.drop (i + 1))) (kc.take (i + 1))
  | some (i, false) =>
      finishSep st.el_stack (strip DT_WHITE (kc.drop (i + 1))) (kc.take i)
  | none =>
      if ¬ st.el_stack = [] ∧ ¬ kc = [] then
        finishSep st.el_stack [kc.getLastD defaultElement] kc.dropLast
      else
        finishSep st.el_stack kc []

/-- One iteration of the main for loop (fs_util.hh lines 375-450), for an
element that has already been group-processed: separators trigger
handleSep, everything else is appended to the key-candidate buffer. -/
def loopStep (fmt : data_format) (st : LoopSt) (e : element) : LoopSt :=
  if e.e_token = DT_SEPARATOR then handleSep fmt st
  else ⟨st.el_stack, st.key_comps ++ [e]⟩

def runLoop (fmt : data_format) (l : List element) : LoopSt :=
  l.foldl (loopStep fmt) ⟨[], []⟩

/-- Lines 452-466 of fs_util.hh: after the loop, an empty stack sends the
whole leftover buffer to the free row; otherwise the leftover buffer is
cleaned and pushed as a final DNT_VALUE.  Returns (stack, free row). -/
def flushStage (st : LoopSt) : List element × List element :=
  if st.el_stack = [] then ([], st.key_comps)
  else
    let v := removeComma (strip DT_WHITE st.key_comps)
    (if v = [] then st.el_stack else st.el_stack ++ [mkNode DNT_VALUE true v], [])

structure MergeOut where
  pairs : List element
  free : List element
  feeds : List (List Char)
deriving DecidableEq, Repr

/-- The pair-merging while loop, fs_util.hh lines 469-504: a leading
DNT_VALUE is pushed to the free row; a DNT_KEY immediately followed by a
DNT_VALUE becomes one DNT_PAIR (children key then value), the key text
being fed to the hash; any other leading element is dropped. -/
def mergeStack (input : List Char) : List element → MergeOut
  | [] => ⟨[], [], []⟩
  | [e] =>
      if e.e_token = DNT_VALUE then ⟨[], [e], []⟩ else ⟨[], [], []⟩
  | e :: v :: rest =>
      if e.e_token = DNT_KEY then
        if v.e_token = DNT_VALUE then
          let m := mergeStack input rest
          ⟨mkNode DNT_PAIR true [e, v] :: m.pairs, m.free,
            getSubstr input e.e_capture :: m.feeds⟩
        else mergeStack input (v :: rest)
      else if e.e_token = DNT_VALUE then
        let m := mergeStack input (v :: rest)
        ⟨m.pairs, e :: m.free, m.feeds⟩
      else mergeStack input (v :: rest)

structure CollapseOut where
  pairs : List element
  free : List element
  pfx : List element
  feeds : List (List Char)
deriving DecidableEq, Repr

/-- The single-pair collapse, fs_util.hh lines 506-524: when exactly one
pair was produced and its last child is a DNT_VALUE with more than one
sub-element, the pair's first child (the key) is moved to the prefix
list, the free row is restarted from the value's sub-elements, the pair
list is emptied and the hash context is re-initialised. -/
def collapseStage (pairs free_row : List element) (feeds : List (List Char)) :
    CollapseOut :=
  match pairs with
  | [p] =>
      match p.e_sub_elements with
      | [] => ⟨pairs, free_row, [], feeds⟩
      | k :: subRest =>
          let v := (k :: subRest).getLastD k
          if v.e_token = DNT_VALUE ∧ 1 < v.e_sub_elements.length then
            ⟨[], v.e_sub_elements, [k], []⟩
          else ⟨pairs, free_row, [], feeds⟩
  | _ => ⟨pairs, free_row, [], feeds⟩

/-- The blank-keyed pair built at fs_util.hh lines 544-553 and 571-579: a
zero-length DNT_KEY at the element's start offset, paired with the
element. -/
def blankPairOf (e : element) : element :=
  mkNode DNT_PAIR true
    [.mk ⟨e.e_capture.c_begin, e.e_capture.c_begin⟩ DNT_KEY [], e]

/-- The switch of fs_util.hh lines 528-543: the token kinds promoted to a
blank-keyed pair during free-row promotion. -/
def typedContent : data_token_t → Bool
  | DNT_GROUP | DT_NUMBER | DT_SYMBOL | DT_HEX_NUMBER | DT_OCTAL_NUMBER
  | DT_VERSION_NUMBER | DT_QUOTED_STRING | DT_IPV4_ADDRESS
  | DT_IPV6_ADDRESS | DT_MAC_ADDRESS | DT_UUID | DT_URL | DT_PATH
  | DT_TIME | DT_PERCENTAGE => true
  | _ => false

/-- The free-row promotion loop, fs_util.hh lines 527-567: typed-content
elements become blank-keyed pairs, every other element only feeds its
text to the hash. -/
def promote (input : List Char) : List element → List element × List (List Char)
  | [] => ([], [])
  | e :: rest =>
      let p := promote input rest
      if typedContent e.e_token then (blankPairOf e :: p.1, p.2)
      else (p.1, getSubstr input e.e_capture :: p.2)

structure PairupOut where
  pairs : List element
  feeds : List (List Char)
deriving DecidableEq, Repr

/-- The tail of the pairup pipeline after the collapse stage: the
free-row promotion loop (entered only when no pair survived and the free
row is non-empty, fs_util.hh line 526) followed by the prefix push of
lines 570-580. -/
def promoteStage (input : List Char) (c : CollapseOut) : PairupOut :=
  let ap :=
    if c.pairs = [] ∧ ¬ c.free = [] then
      let pr := promote input c.free
      (c.pairs ++ pr.1, c.feeds ++ pr.2)
    else (c.pairs, c.feeds)
  match c.pfx with
  | [] => ⟨ap.1, ap.2⟩
  | e :: _ => ⟨blankPairOf e :: ap.1, ap.2⟩

/-- One level of data_parser::pairup (fs_util.hh lines 369-585) on an
already group-processed element list: main loop, flush, merge, collapse,
then the promotion/prefix tail.  `feeds` is the ordered list of strings
fed to the running hash (the schema id is the digest of exactly this
sequence). -/
def pairupCore (input : List Char) (fmt : data_format) (l : List element) :
    PairupOut :=
  let st := runLoop fmt l
  let fl := flushStage st
  let m := mergeStack input fl.1
  promoteStage input (collapseStage m.pairs (fl.2 ++ m.free) m.feeds)

mutual

/-- Group pre-processing of fs_util.hh lines 378-385: a DNT_GROUP element
has its children pairued recursively (with no schema requested) and, when
that produced any pairs, replaced by them (capture recomputed). -/
def processElem (input : List Char) (fmt : data_format) : element → element
  | .mk cap tok subs =>
      if tok = DNT_GROUP then
        let gp := (pairupCore input fmt (processList input fmt subs)).pairs
        if gp = [] then .mk cap tok subs
        else assignElements (.mk cap tok subs) gp
      else .mk cap tok subs

def processList (input : List Char) (fmt : data_format) :
    List element → List element
  | [] => []
  | e :: rest => processElem input fmt e :: processList input fmt rest

end

/-- data_parser::pairup at the top level (schema requested): group
pre-processing followed by the one-level pipeline. -/
def pairup (input : List Char) (fmt : data_format) (l : List element) :
    PairupOut :=
  pairupCore input fmt (processList input fmt l)

def isOpener : data_token_t → Bool
  | DT_LPAREN | DT_LANGLE | DT_LCURLY | DT_LSQUARE => true
  | _ => false

/-- The `dp_group_token.back() == (elem.e_token - 1)` comparison of
fs_util.hh line 627: each closing bracket kind numerically follows its
opening kind in the token enumeration, so the closer matches when the
most recent opener is this kind. -/
def openerFor : data_token_t → Option data_token_t
  | DT_RPAREN => some DT_LPAREN
  | DT_RANGLE => some DT_LANGLE
  | DT_RCURLY => some DT_LCURLY
  | DT_RSQUARE => some DT_LSQUARE
  | _ => none

/-- State of the discover_format token loop: the bracket-kind stack
(head = most recently opened, seeded with DT_INVALID), the pending group
stack (head = innermost level, seeded with one empty level), the two
classifier states and the token histogram. -/
structure DState where
  group_token : List data_token_t
  group_stack : List (List element)
  semi : data_format_state_t
  comma : data_format_state_t
  hist : data_token_t → Nat

def dinit : DState :=
  ⟨[DT_INVALID], [[]], DFS_INIT, DFS_INIT, fun _ => 0⟩

/-- dp_group_stack.back().push_back(elem): append a leaf to the current
innermost level (the stack is never empty; the empty case is an
unreachable guard). -/
def pushLeaf (st : DState) (e : element) : DState :=
  { st with group_stack :=
      match st.group_stack with
      | top :: rest => (top ++ [e]) :: rest
      | [] => [[e]] }

/-- One force-close step (shared with the closer case of the token loop):
wrap a non-empty popped level as a DNT_GROUP appended to the enclosing
level; an empty popped level is discarded. -/
def closeLevel (next top : List element) : List element :=
  if top = [] then next else next ++ [mkNode DNT_GROUP true top]

/-- One iteration of the discover_format while loop (fs_util.hh lines
600-647): advance both classifiers and the histogram, then push a new
level on an opener; on a kind-matching closer pop the level and wrap it
as a DNT_GROUP into the enclosing level when non-empty; any other token
(including a mismatched closer) is appended as a leaf. -/
def dstep
    (semiNext commaNext :
      data_format_state_t → data_token_t → data_format_state_t)
    (st : DState) (tk : data_token_t × capture_t) : DState :=
  let elem : element := .mk tk.2 tk.1 []
  let st1 : DState :=
    { st with
      semi := semiNext st.semi tk.1,
      comma := commaNext st.comma tk.1,
      hist := fun t => if t = tk.1 then st.hist t + 1 else st.hist t }
  if isOpener tk.1 then
    { st1 with
      group_token := tk.1 :: st1.group_token,
      group_stack := [] :: st1.group_stack }
  else
    match openerFor tk.1 with
    | some opn =>
        if st1.group_token.headD DT_INVALID = opn then
          { st1 with
            group_token := st1.group_token.tail,
            group_stack :=
              match st1.group_stack with
              | top :: next :: rest => closeLevel next top :: rest
              | l => l }
        else pushLeaf st1 elem
    | none => pushLeaf st1 elem

def forceCloseAcc (acc : List element) :
    List (List element) → List element
  | [] => acc
  | lvl :: rest => forceCloseAcc (closeLevel lvl acc) rest

/-- The force-close loop of fs_util.hh lines 650-661: while more than one
level is open, wrap the innermost non-empty level as a DNT_GROUP into the
level below (accumulator form of that while loop). -/
def forceClose : List (List element) → List (List element)
  | [] => []
  | top :: rest => [forceCloseAcc top rest]

structure DiscoverOut where
  top : List element
  fsel : format_sel

/-- data_parser::discover_format (fs_util.hh lines 587-672),
parameterised by the two classifier transition functions dfs_semi_next /
dfs_comma_next, which live in data_scanner.cc outside these sources.
Returns the fully-grouped top level and the chosen format. -/
def discover_format
    (semiNext commaNext :
      data_format_state_t → data_token_t → data_format_state_t)
    (toks : List (data_token_t × capture_t)) : DiscoverOut :=
  let st := toks.foldl (dstep semiNext commaNext) dinit
  let sel :=
    if ¬ st.semi = DFS_ERROR ∧ 0 < st.hist DT_SEMI then FSEMI
    else if ¬ st.comma = DFS_ERROR then FCOMMA
    else FPLAIN
  ⟨(forceClose st.group_stack).headD [], sel⟩

/-- data_parser::parse (fs_util.hh lines 674-691): discover the format,
then pairup the grouped top level with the schema requested. -/
def dataParse
    (semiNext commaNext :
      data_format_state_t → data_token_t → data_format_state_t)
    (input : List Char) (toks : List (data_token_t × capture_t)) :
    PairupOut :=
  let d := discover_format semiNext commaNext toks
  pairup input (format_of d.fsel) d.top

mutual

/-- Number of DNT_GROUP nodes in an element tree. -/
def countGroupsE : element → Nat
  | .mk _ t subs => (if t = DNT_GROUP then 1 else 0) + countGroupsL subs

/-- Number of DNT_GROUP nodes in a forest. -/
def countGroupsL : List element → Nat
  | [] => 0
  | e :: rest => countGroupsE e + countGroupsL rest

end

/-- Number of syntactically matched, kind-correct bracket pairs in a
token stream: an opener pushes its kind; a closer whose kind matches the
most recent opener pops it and counts one pair. -/
def matchedPairs (toks : List (data_token_t × capture_t)) : Nat :=
  (toks.foldl
    (fun (st : List data_token_t × Nat) tk =>
      if isOpener tk.1 then (tk.1 :: st.1, st.2)
      else
        match openerFor tk.1 with
        | some opn =>
            if st.1.headD DT_INVALID = opn then (st.1.tail, st.2 + 1) else st
        | none => st)
    ([], 0)).2

/-- Number of opening bracket tokens in a token stream. -/
def countOpeners (toks : List (data_token_t × capture_t)) : Nat :=
  toks.countP (fun tk => isOpener tk.1)

/-- A key-marker element for a format: its token is the appender or the
terminator (the two kinds the backward scan of fs_util.hh lines 392-419
reacts to). -/
def isMarkerP (fmt : data_format) (e : element) : Prop :=
  e.e_token = fmt.df_appender ∨ e.e_token = fmt.df_terminator

instance (fmt : data_format) (e : element) : Decidable (isMarkerP fmt e) :=
  inferInstanceAs (Decidable (_ ∨ _))

/-- Key text of a DNT_PAIR element: the input substring of its first
child (the text fed to the schema hash when the pair was merged). -/
def keyTextOf (input : List Char) (p : element) : List Char :=
  getSubstr input (p.e_sub_elements.headD defaultElement).e_capture

/-- The merge-stage output of one top-level pairup invocation (stages of
fs_util.hh up to line 504). -/
def mergedOf (input : List Char) (fmt : data_format) (l : List element) :
    MergeOut :=
  mergeStack input (flushStage (runLoop fmt (processList input fmt l))).1

/-- The collapse-stage output of one top-level pairup invocation
(fs_util.hh up to line 524). -/
def collapsedOf (input : List Char) (fmt : data_format) (l : List element) :
    CollapseOut :=
  let fl := flushStage (runLoop fmt (processList input fmt l))
  let m := mergeStack input fl.1
  collapseStage m.pairs (fl.2 ++ m.free) m.feeds

/-- Total DNT_GROUP count over a stack of pending levels. -/
def countGroupsLL : List (List element) → Nat
  | [] => 0
  | l :: rest => countGroupsL l + countGroupsLL rest

/-! ## Claims -/

/-- C9: parsing an empty token stream yields zero pairs and the
reset/not-computed schema state (no bytes were ever fed to the digest,
which is exactly the freshly-initialised hash context). -/
theorem claim9_empty_input
    (semiNext commaNext :
      data_format_state_t → data_token_t → data_format_state_t)
    (input : List Char) :
    dataParse semiNext commaNext input [] = ⟨[], []⟩ := rfl

/-- C2: the pair-merging stage.  A DNT_KEY immediately followed by a
DNT_VALUE merges into exactly one DNT_PAIR with children key-then-value,
consuming both (and feeding the key text to the hash); a leading
DNT_VALUE (one with no immediately preceding unconsumed key) is appended
to the free row rather than discarded; a DNT_KEY not immediately
followed by a DNT_VALUE is dropped, producing neither a pair nor a
free-row entry. -/
theorem claim2_pair_merging (input : List Char) :
    (∀ k v rest, k.e_token = DNT_KEY → v.e_token = DNT_VALUE →
      mergeStack input (k :: v :: rest) =
        ⟨mkNode DNT_PAIR true [k, v] :: (mergeStack input rest).pairs,
         (mergeStack input rest).free,
         getSubstr input k.e_capture :: (mergeStack input rest).feeds⟩) ∧
    (∀ v rest, v.e_token = DNT_VALUE →
      mergeStack input (v :: rest) =
        ⟨(mergeStack input rest).pairs,
         v :: (mergeStack input rest).free,
         (mergeStack input rest).feeds⟩) ∧
    (∀ k rest, k.e_token = DNT_KEY →
      (∀ v, rest.head? = some v → ¬ v.e_token = DNT_VALUE) →
      mergeStack input (k :: rest) = mergeStack input rest) := by
  refine ⟨?_, ?_, ?_⟩
  · intro k v rest hk hv
    simp [mergeStack, hk, hv]
  · intro v rest hv
    cases rest with
    | nil => simp [mergeStack, hv]
    | cons r rs => simp [mergeStack, hv]
  · intro k rest hk hnv
    cases rest with
    | nil => simp [mergeStack, hk]
    | cons r rs =>
      have hr := hnv r rfl
      simp [mergeStack, hk, hr]

/-- Witness for C2 at a concrete key/value stack. -/
theorem claim2_pair_merging_witness :
    mergeStack []
        [element.mk ⟨0, 1⟩ DNT_KEY [], element.mk ⟨2, 3⟩ DNT_VALUE []] =
      ⟨[mkNode DNT_PAIR true
          [element.mk ⟨0, 1⟩ DNT_KEY [], element.mk ⟨2, 3⟩ DNT_VALUE []]],
       [], [[]]⟩ :=
  (claim2_pair_merging []).1 (element.mk ⟨0, 1⟩ DNT_KEY [])
    (element.mk ⟨2, 3⟩ DNT_VALUE []) [] rfl rfl

/-- C6 counterexample: the claim says raw symbols are never promoted to
pairs and only contribute their text to the hash, but the promotion
switch of fs_util.hh line 531 includes DT_SYMBOL: a lone symbol leftover
is promoted to a blank-keyed pair and feeds nothing to the hash. -/
theorem claim6_counterexample :
    pairup ['s', 'y', 'm'] FORMAT_COMMA [element.mk ⟨0, 3⟩ DT_SYMBOL []] =
      ⟨[element.mk ⟨0, 3⟩ DNT_PAIR
          [element.mk ⟨0, 0⟩ DNT_KEY [], element.mk ⟨0, 3⟩ DT_SYMBOL []]],
       []⟩ := by
  decide

/-- C6 amended: during free-row promotion a leftover element is
synthesized into a blank-keyed pair exactly when its kind is in the
typed-content set, which consists of the claimed kinds PLUS DT_SYMBOL;
every other leftover kind (plain words, whitespace, stray punctuation)
only contributes its text to the hash. -/
theorem claim6_amended (input : List Char) :
    (∀ e rest,
      promote input (e :: rest) =
        if typedContent e.e_token then
          (blankPairOf e :: (promote input rest).1, (promote input rest).2)
        else
          ((promote input rest).1,
           getSubstr input e.e_capture :: (promote input rest).2)) ∧
    (∀ t, typedContent t = true ↔
      t ∈ [DNT_GROUP, DT_NUMBER, DT_SYMBOL, DT_HEX_NUMBER, DT_OCTAL_NUMBER,
           DT_VERSION_NUMBER, DT_QUOTED_STRING, DT_IPV4_ADDRESS,
           DT_IPV6_ADDRESS, DT_MAC_ADDRESS, DT_UUID, DT_URL, DT_PATH,
           DT_TIME, DT_PERCENTAGE]) := by
  constructor
  · intro e rest
    rfl
  · intro t
    cases t <;> decide

/-- Helper for C5: the collapse branch of fs_util.hh lines 506-524 at a
singleton pair list whose pair has children key/value with a multi-child
value: pairs emptied, free row restarted from the value's sub-elements,
the key moved to the prefix list, hash context reset. -/
theorem collapseStage_fires (fr : List element) (feeds : List (List Char))
    (p k v : element) (hsub : p.e_sub_elements = [k, v])
    (hv : v.e_token = DNT_VALUE) (hlen : 1 < v.e_sub_elements.length) :
    collapseStage [p] fr feeds = ⟨[], v.e_sub_elements, [k], []⟩ := by
  cases p with
  | mk cap tok subs =>
    simp only [element.e_sub_elements] at hsub
    subst hsub
    simp [collapseStage, element.e_sub_elements, hv, hlen]
    exact hlen

/-- C5 counterexample: on the token line `x:k,4 6` (one merged pair whose
value has two children, with a plain-word key `k`), the collapse fires,
but the key is NOT re-inserted as a leading free-row element: a leading
free WORD would feed its text to the hash and produce no pair, whereas
the code re-emits the key as a blank-keyed pair prepended to the pair
list (three pairs, nothing fed to the hash). -/
theorem claim5_counterexample :
    pairup ['x', ':', 'k', ',', '4', ' ', '6'] FORMAT_COMMA
        [element.mk ⟨0, 1⟩ DT_WORD [], element.mk ⟨1, 2⟩ DT_COLON [],
         element.mk ⟨2, 3⟩ DT_WORD [], element.mk ⟨3, 4⟩ DT_SEPARATOR [],
         element.mk ⟨4, 5⟩ DT_NUMBER [], element.mk ⟨6, 7⟩ DT_NUMBER []] =
      ⟨[element.mk ⟨2, 3⟩ DNT_PAIR
          [element.mk ⟨2, 2⟩ DNT_KEY [], element.mk ⟨2, 3⟩ DNT_KEY []],
        element.mk ⟨4, 5⟩ DNT_PAIR
          [element.mk ⟨4, 4⟩ DNT_KEY [], element.mk ⟨4, 5⟩ DT_NUMBER []],
        element.mk ⟨6, 7⟩ DNT_PAIR
          [element.mk ⟨6, 6⟩ DNT_KEY [], element.mk ⟨6, 7⟩ DT_NUMBER []]],
       []⟩ := by
  decide

/-- C5 amended: when the merge stage produced exactly one pair whose
children are a key and a DNT_VALUE with more than one sub-element, the
pair is removed, the free row is restarted from exactly the value's
sub-elements (discarding any earlier free-row entries), the hash context
is reset to empty, and the key element is re-emitted as a blank-keyed
pair prepended to the final pair list (bypassing both the free-row
promotion filter and the hash), the remaining pairs coming from
promotion of the value's sub-elements. -/
theorem claim5_amended (input : List Char) (fmt : data_format)
    (l : List element) (p k v : element)
    (hm : (mergedOf input fmt l).pairs = [p])
    (hsub : p.e_sub_elements = [k, v])
    (hv : v.e_token = DNT_VALUE)
    (hlen : 1 < v.e_sub_elements.length) :
    collapsedOf input fmt l = ⟨[], v.e_sub_elements, [k], []⟩ ∧
    pairup input fmt l =
      ⟨blankPairOf k :: (promote input v.e_sub_elements).1,
       (promote input v.e_sub_elements).2⟩ := by
  unfold mergedOf at hm
  have hc : collapsedOf input fmt l = ⟨[], v.e_sub_elements, [k], []⟩ := by
    unfold collapsedOf
    simp only []
    rw [hm]
    exact collapseStage_fires _ _ p k v hsub hv hlen
  refine ⟨hc, ?_⟩
  have hpu : pairup input fmt l =
      promoteStage input (collapsedOf input fmt l) := rfl
  rw [hpu, hc]
  have hne : ¬ v.e_sub_elements = [] := by
    intro h
    rw [h] at hlen
    simp at hlen
  simp [promoteStage, hne]

/-- Witness for C5 at a concrete collapsing line (`x:k,7 w`). -/
theorem claim5_amended_witness :
    collapsedOf ['x', ':', 'k', ',', '7', ' ', 'w'] FORMAT_COMMA
        [element.mk ⟨0, 1⟩ DT_WORD [], element.mk ⟨1, 2⟩ DT_COLON [],
         element.mk ⟨2, 3⟩ DT_WORD [], element.mk ⟨3, 4⟩ DT_SEPARATOR [],
         element.mk ⟨4, 5⟩ DT_NUMBER [], element.mk ⟨6, 7⟩ DT_WORD []] =
      ⟨[], [element.mk ⟨4, 5⟩ DT_NUMBER [], element.mk ⟨6, 7⟩ DT_WORD []],
       [element.mk ⟨2, 3⟩ DNT_KEY []], []⟩ ∧
    pairup ['x', ':', 'k', ',', '7', ' ', 'w'] FORMAT_COMMA
        [element.mk ⟨0, 1⟩ DT_WORD [], element.mk ⟨1, 2⟩ DT_COLON [],
         element.mk ⟨2, 3⟩ DT_WORD [], element.mk ⟨3, 4⟩ DT_SEPARATOR [],
         element.mk ⟨4, 5⟩ DT_NUMBER [], element.mk ⟨6, 7⟩ DT_WORD []] =
      ⟨blankPairOf (element.mk ⟨2, 3⟩ DNT_KEY []) ::
        (promote ['x', ':', 'k', ',', '7', ' ', 'w']
          [element.mk ⟨4, 5⟩ DT_NUMBER [], element.mk ⟨6, 7⟩ DT_WORD []]).1,
       (promote ['x', ':', 'k', ',', '7', ' ', 'w']
          [element.mk ⟨4, 5⟩ DT_NUMBER [], element.mk ⟨6, 7⟩ DT_WORD []]).2⟩ :=
  claim5_amended ['x', ':', 'k', ',', '7', ' ', 'w'] FORMAT_COMMA
    [element.mk ⟨0, 1⟩ DT_WORD [], element.mk ⟨1, 2⟩ DT_COLON [],
     element.mk ⟨2, 3⟩ DT_WORD [], element.mk ⟨3, 4⟩ DT_SEPARATOR [],
     element.mk ⟨4, 5⟩ DT_NUMBER [], element.mk ⟨6, 7⟩ DT_WORD []]
    (element.mk ⟨2, 7⟩ DNT_PAIR
      [element.mk ⟨2, 3⟩ DNT_KEY [],
       element.mk ⟨4, 7⟩ DNT_VALUE
         [element.mk ⟨4, 5⟩ DT_NUMBER [], element.mk ⟨6, 7⟩ DT_WORD []]])
    (element.mk ⟨2, 3⟩ DNT_KEY [])
    (element.mk ⟨4, 7⟩ DNT_VALUE
      [element.mk ⟨4, 5⟩ DT_NUMBER [], element.mk ⟨6, 7⟩ DT_WORD []])
    (by decide) (by decide) (by decide) (by decide)


/-- Helper: whatever the backward scan returns lies in the window
[1, n), is a marker, carries the appender flag exactly when its token is
the appender (the appender is compared first at each element), and no
marker occurs strictly between the hit and the end of the window. -/
theorem rscanGo_some (fmt : data_format) (kc : List element) :
    ∀ n i b, rscanGo fmt kc n = some (i, b) →
      1 ≤ i ∧ i < n ∧
      (∃ e, kc[i]? = some e ∧ isMarkerP fmt e ∧
        (b = true ↔ e.e_token = fmt.df_appender)) ∧
      (∀ j e, i < j → j < n → kc[j]? = some e → ¬ isMarkerP fmt e)
  | 0, i, b => by
      intro h
      simp [rscanGo] at h
  | 1, i, b => by
      intro h
      simp [rscanGo] at h
  | (n + 2), i, b => by
      intro h
      rw [rscanGo] at h
      split at h
      case h_1 hk =>
        obtain ⟨h1, h2, h3, h4⟩ := rscanGo_some fmt kc (n + 1) i b h
        refine ⟨h1, by omega, h3, ?_⟩
        intro j e hij hjn hje
        rcases Nat.lt_or_ge j (n + 1) with hlt | hge
        · exact h4 j e hij hlt hje
        · have hj : j = n + 1 := by omega
          subst hj
          rw [hk] at hje
          cases hje
      case h_2 e hk =>
        split at h
        · cases h
          next ha =>
            refine ⟨by omega, by omega,
              ⟨e, hk, Or.inl ha, by simp [ha]⟩, ?_⟩
            intro j e2 hij hjn hje
            exact absurd (And.intro hij hjn) (by omega)
        · split at h
          · cases h
            next ha ht =>
              refine ⟨by omega, by omega,
                ⟨e, hk, Or.inr ht, by simp [ha]⟩, ?_⟩
              intro j e2 hij hjn hje
              exact absurd (And.intro hij hjn) (by omega)
          · next ha ht =>
              obtain ⟨h1, h2, h3, h4⟩ := rscanGo_some fmt kc (n + 1) i b h
              refine ⟨h1, by omega, h3, ?_⟩
              intro j e2 hij hjn hje
              rcases Nat.lt_or_ge j (n + 1) with hlt | hge
              · exact h4 j e2 hij hlt hje
              · have hj : j = n + 1 := by omega
                subst hj
                rw [hk] at hje
                cases hje
                intro hmk
                cases hmk with
                | inl hx => exact ha hx
                | inr hx => exact ht hx

/-- Helper: the backward scan finds nothing exactly when no element in
the examined window [1, n) is a marker (index 0 is never examined). -/
theorem rscanGo_none (fmt : data_format) (kc : List element) :
    ∀ n, rscanGo fmt kc n = none ↔
      ∀ j e, 1 ≤ j → j < n → kc[j]? = some e → ¬ isMarkerP fmt e
  | 0 => by
      constructor
      · intro _ j e h1 h2 h3
        exact absurd h2 (by omega)
      · intro _
        rfl
  | 1 => by
      constructor
      · intro _ j e h1 h2 h3
        exact absurd (And.intro h1 h2) (by omega)
      · intro _
        rfl
  | (n + 2) => by
      rw [rscanGo]
      split
      case h_1 hk =>
        rw [rscanGo_none fmt kc (n + 1)]
        constructor
        · intro hw j e h1 h2 hje
          rcases Nat.lt_or_ge j (n + 1) with hlt | hge
          · exact hw j e h1 hlt hje
          · have hj : j = n + 1 := by omega
            subst hj
            rw [hk] at hje
            cases hje
        · intro hw j e h1 h2 hje
          exact hw j e h1 (by omega) hje
      case h_2 e hk =>
        split
        · next ha =>
            constructor
            · intro h
              cases h
            · intro hw
              exact absurd (Or.inl ha) (hw (n + 1) e (by omega) (by omega) hk)
        · split
          · next ha ht =>
              constructor
              · intro h
                cases h
              · intro hw
                exact absurd (Or.inr ht) (hw (n + 1) e (by omega) (by omega) hk)
          · next ha ht =>
              rw [rscanGo_none fmt kc (n + 1)]
              constructor
              · intro hw j e2 h1 h2 hje
                rcases Nat.lt_or_ge j (n + 1) with hlt | hge
                · exact hw j e2 h1 hlt hje
                · have hj : j = n + 1 := by omega
                  subst hj
                  rw [hk] at hje
                  cases hje
                  intro hmk
                  cases hmk with
                  | inl hx => exact ha hx
                  | inr hx => exact ht hx
              · intro hw j e2 h1 h2 hje
                exact hw j e2 h1 (by omega) hje

/-- C4 counterexample: the buffer WORD = WORD : WORD contains the
appender at index 1, yet the single backward scan hits the terminator at
index 3 first (it is nearer the end), so the terminator, not the
appender, determines the split: the emitted stack is the
terminator-style one (value = the three elements before the colon, key =
the word after it). -/
theorem claim4_counterexample :
    rscan FORMAT_SEMI
        [element.mk ⟨0, 1⟩ DT_WORD [], element.mk ⟨1, 2⟩ DT_EQUALS [],
         element.mk ⟨2, 3⟩ DT_WORD [], element.mk ⟨3, 4⟩ DT_COLON [],
         element.mk ⟨4, 5⟩ DT_WORD []] = some (3, false) ∧
    (FORMAT_SEMI.df_appender = DT_EQUALS ∧
     FORMAT_SEMI.df_terminator = DT_COLON) ∧
    handleSep FORMAT_SEMI
        ⟨[], [element.mk ⟨0, 1⟩ DT_WORD [], element.mk ⟨1, 2⟩ DT_EQUALS [],
              element.mk ⟨2, 3⟩ DT_WORD [], element.mk ⟨3, 4⟩ DT_COLON [],
              element.mk ⟨4, 5⟩ DT_WORD []]⟩ =
      ⟨[element.mk ⟨0, 3⟩ DNT_VALUE
          [element.mk ⟨0, 1⟩ DT_WORD [], element.mk ⟨1, 2⟩ DT_EQUALS [],
           element.mk ⟨2, 3⟩ DT_WORD []],
        element.mk ⟨4, 5⟩ DNT_KEY []], []⟩ := by
  refine ⟨by decide, by decide, by decide⟩

/-- C4 amended: the separator scan is a single backward pass over the
buffer, never examining index 0; it stops at the first element from the
end whose token is the appender OR the terminator, so whichever of the
two tokens occurs nearest the end of the buffer determines the split.
The appender has precedence only per element (an element that is the
appender yields the appender branch even if it also equals the
terminator), not across the buffer. -/
theorem claim4_amended (fmt : data_format) (kc : List element)
    (i : Nat) (b : Bool) :
    rscan fmt kc = some (i, b) ↔
      (1 ≤ i ∧ i < kc.length ∧
       (∃ e, kc[i]? = some e ∧ isMarkerP fmt e ∧
         (b = true ↔ e.e_token = fmt.df_appender)) ∧
       (∀ j e, i < j → j < kc.length → kc[j]? = some e →
         ¬ isMarkerP fmt e)) := by
  constructor
  · intro h
    exact rscanGo_some fmt kc kc.length i b h
  · rintro ⟨h1, h2, ⟨e, he, hm, hb⟩, hmax⟩
    cases hr : rscan fmt kc with
    | none =>
      have hnone := (rscanGo_none fmt kc kc.length).mp hr i e h1 h2 he
      exact absurd hm hnone
    | some ib =>
      obtain ⟨i2, b2⟩ := ib
      obtain ⟨g1, g2, ⟨e2, he2, hm2, hb2⟩, gmax⟩ :=
        rscanGo_some fmt kc kc.length i2 b2 hr
      have hii : i = i2 := by
        rcases Nat.lt_trichotomy i i2 with hlt | heq | hgt
        · exact absurd hm2 (hmax i2 e2 hlt g2 he2)
        · exact heq
        · exact absurd hm (gmax i e hgt h2 he)
      subst hii
      rw [he] at he2
      cases he2
      have hbb : b = b2 := by
        cases b <;> cases b2 <;> simp_all
      rw [hbb]

/-- Witness for C4 at a concrete buffer with a single appender. -/
theorem claim4_amended_witness :
    rscan FORMAT_SEMI
        [element.mk ⟨0, 1⟩ DT_WORD [], element.mk ⟨1, 2⟩ DT_EQUALS [],
         element.mk ⟨2, 3⟩ DT_WORD []] = some (1, true) :=
  (claim4_amended FORMAT_SEMI
      [element.mk ⟨0, 1⟩ DT_WORD [], element.mk ⟨1, 2⟩ DT_EQUALS [],
       element.mk ⟨2, 3⟩ DT_WORD []] 1 true).mpr
    ⟨by decide, by decide,
     ⟨element.mk ⟨1, 2⟩ DT_EQUALS [], by decide, by decide, by decide⟩,
     by
      intro j e hij hjn hje
      simp only [List.length_cons, List.length_nil] at hjn
      have hj : j = 2 := by omega
      subst hj
      have he : e = element.mk ⟨2, 3⟩ DT_WORD [] := by
        simpa using hje.symm
      subst he
      decide⟩

/-- C10: the backward scan never examines the first element of the
key-candidate buffer: if every element at index 1 or later is neither
the appender nor the terminator (even when index 0 holds one), the scan
finds nothing and the separator is handled by the not-found path — the
fallback split when the stack and buffer are non-empty, the plain
strip-and-flush otherwise. -/
theorem claim10_first_element_unexamined (fmt : data_format)
    (stack kc : List element)
    (h : ∀ j e, 1 ≤ j → j < kc.length → kc[j]? = some e →
      ¬ isMarkerP fmt e) :
    rscan fmt kc = none ∧
    handleSep fmt ⟨stack, kc⟩ =
      (if ¬ stack = [] ∧ ¬ kc = [] then
        finishSep stack [kc.getLastD defaultElement] kc.dropLast
      else finishSep stack kc []) := by
  have hn : rscan fmt kc = none := (rscanGo_none fmt kc kc.length).mpr h
  refine ⟨hn, ?_⟩
  unfold handleSep
  simp only [hn]

/-- Witness for C10 at a buffer whose only marker is its first element. -/
theorem claim10_witness :
    rscan FORMAT_SEMI
        [element.mk ⟨0, 1⟩ DT_EQUALS [], element.mk ⟨2, 3⟩ DT_WORD []] =
      none ∧
    handleSep FORMAT_SEMI
        ⟨[], [element.mk ⟨0, 1⟩ DT_EQUALS [],
              element.mk ⟨2, 3⟩ DT_WORD []]⟩ =
      (if ¬ ([] : List element) = [] ∧
          ¬ [element.mk ⟨0, 1⟩ DT_EQUALS [],
             element.mk ⟨2, 3⟩ DT_WORD []] = ([] : List element) then
        finishSep []
          [[element.mk ⟨0, 1⟩ DT_EQUALS [],
            element.mk ⟨2, 3⟩ DT_WORD []].getLastD defaultElement]
          [element.mk ⟨0, 1⟩ DT_EQUALS [],
           element.mk ⟨2, 3⟩ DT_WORD []].dropLast
      else
        finishSep []
          [element.mk ⟨0, 1⟩ DT_EQUALS [], element.mk ⟨2, 3⟩ DT_WORD []]
          []) :=
  claim10_first_element_unexamined FORMAT_SEMI []
    [element.mk ⟨0, 1⟩ DT_EQUALS [], element.mk ⟨2, 3⟩ DT_WORD []]
    (by
      intro j e h1 h2 hje
      simp only [List.length_cons, List.length_nil] at h2
      have hj : j = 1 := by omega
      subst hj
      have he : e = element.mk ⟨2, 3⟩ DT_WORD [] := by
        simpa using hje.symm
      subst he
      decide)

/-- Helper: stripping whitespace from both ends is idempotent. -/
theorem strip_idem (t : data_token_t) (l : List element) :
    strip t (strip t l) = strip t l := by
  have e1 : strip t l =
      List.rdropWhile (fun e => decide (e.e_token = t))
        (l.dropWhile (fun e => decide (e.e_token = t))) := rfl
  have e2 : strip t (strip t l) =
      List.rdropWhile (fun e => decide (e.e_token = t))
        ((strip t l).dropWhile (fun e => decide (e.e_token = t))) := rfl
  have key : (strip t l).dropWhile (fun e => decide (e.e_token = t)) =
      strip t l := by
    rw [List.dropWhile_eq_self_iff]
    intro hl
    have hpre : strip t l <+:
        l.dropWhile (fun e => decide (e.e_token = t)) := by
      rw [e1]
      exact List.rdropWhile_prefix _ _
    have hlen : 0 < (l.dropWhile (fun e => decide (e.e_token = t))).length :=
      lt_of_lt_of_le hl hpre.length_le
    have hget := hpre.getElem hl
    have hnot := List.dropWhile_get_zero_not
      (fun e => decide (e.e_token = t)) l hlen
    simpa [List.get_eq_getElem, hget] using hnot
  rw [e2, key, e1, List.rdropWhile_idempotent]

/-- C3 counterexample: on the buffer WORD : WORD WORD followed by a
separator, the terminator-triggered scan emits a Key whose capture spans
(3,6) — BOTH words after the colon — not a single-element key at (3,4):
nothing truncates the terminator-case key to one element. -/
theorem claim3_counterexample :
    runLoop FORMAT_SEMI
        [element.mk ⟨0, 1⟩ DT_WORD [], element.mk ⟨1, 2⟩ DT_COLON [],
         element.mk ⟨3, 4⟩ DT_WORD [], element.mk ⟨5, 6⟩ DT_WORD [],
         element.mk ⟨6, 7⟩ DT_SEPARATOR []] =
      ⟨[element.mk ⟨0, 1⟩ DNT_VALUE [element.mk ⟨0, 1⟩ DT_WORD []],
        element.mk ⟨3, 6⟩ DNT_KEY []], []⟩ := by
  decide

/-- C3 amended: in the terminator case the emitted Key is built from ALL
elements after the terminator (whitespace-stripped at both ends) and its
capture spans from the first to the last of them, so it can cover more
than one element; in the appender case, when at least one element
remains after the appender, the key buffer is truncated to the FIRST
remaining element (the self-splice of fs_util.hh lines 401-403 passes
the end iterator and is a no-op, so resize(1) keeps the front) and any
later remaining elements are discarded — they do not merge into the
value. -/
theorem claim3_amended (fmt : data_format) (stack kc : List element)
    (i : Nat) (e0 : element) (rest : List element) :
    (rscan fmt kc = some (i, false) →
      strip DT_WHITE (kc.drop (i + 1)) = e0 :: rest →
      handleSep fmt ⟨stack, kc⟩ =
        ⟨(let v := removeComma (strip DT_WHITE (kc.take i))
          if v = [] then stack
          else stack ++ [mkNode DNT_VALUE true v]) ++
         [element.mk ⟨e0.e_capture.c_begin,
             ((e0 :: rest).getLastD e0).e_capture.c_end⟩ DNT_KEY []],
         []⟩) ∧
    (rscan fmt kc = some (i, true) →
      kc.drop (i + 1) = e0 :: rest →
      handleSep fmt ⟨stack, kc⟩ =
        finishSep stack [e0] (kc.take (i + 1))) := by
  constructor
  · intro hs hstrip
    have hk2 : strip DT_WHITE (e0 :: rest) = e0 :: rest := by
      rw [← hstrip, strip_idem]
    unfold handleSep
    simp only [hs]
    rw [hstrip]
    simp only [finishSep, hk2, mkNode]
    simp
  · intro hs hdrop
    unfold handleSep
    simp only [hs]
    rw [hdrop]
    rfl

/-- Witness for C3: a terminator split whose key covers two words, and
an appender split that keeps only the first remaining element. -/
theorem claim3_amended_witness :
    handleSep FORMAT_SEMI
        ⟨[], [element.mk ⟨0, 1⟩ DT_WORD [], element.mk ⟨1, 2⟩ DT_COLON [],
              element.mk ⟨3, 4⟩ DT_WORD [], element.mk ⟨5, 6⟩ DT_WORD []]⟩ =
      ⟨[element.mk ⟨0, 1⟩ DNT_VALUE [element.mk ⟨0, 1⟩ DT_WORD []],
        element.mk ⟨3, 6⟩ DNT_KEY []], []⟩ ∧
    handleSep FORMAT_SEMI
        ⟨[], [element.mk ⟨0, 1⟩ DT_WORD [], element.mk ⟨1, 2⟩ DT_EQUALS [],
              element.mk ⟨2, 3⟩ DT_WORD [], element.mk ⟨4, 5⟩ DT_WORD []]⟩ =
      finishSep [] [element.mk ⟨2, 3⟩ DT_WORD []]
        ([element.mk ⟨0, 1⟩ DT_WORD [], element.mk ⟨1, 2⟩ DT_EQUALS [],
          element.mk ⟨2, 3⟩ DT_WORD [], element.mk ⟨4, 5⟩ DT_WORD []].take 2) :=
  ⟨by
    have h := (claim3_amended FORMAT_SEMI []
      [element.mk ⟨0, 1⟩ DT_WORD [], element.mk ⟨1, 2⟩ DT_COLON [],
       element.mk ⟨3, 4⟩ DT_WORD [], element.mk ⟨5, 6⟩ DT_WORD []]
      1 (element.mk ⟨3, 4⟩ DT_WORD []) [element.mk ⟨5, 6⟩ DT_WORD []]).1
      (by decide) (by decide)
    simpa using h,
   (claim3_amended FORMAT_SEMI []
      [element.mk ⟨0, 1⟩ DT_WORD [], element.mk ⟨1, 2⟩ DT_EQUALS [],
       element.mk ⟨2, 3⟩ DT_WORD [], element.mk ⟨4, 5⟩ DT_WORD []]
      1 (element.mk ⟨2, 3⟩ DT_WORD []) [element.mk ⟨4, 5⟩ DT_WORD []]).2
      (by decide) (by decide)⟩

/-- Helper: every branch of the token-loop step advances the semicolon
classifier by exactly one transition. -/
theorem dstep_semi
    (sN cN : data_format_state_t → data_token_t → data_format_state_t)
    (st : DState) (tk : data_token_t × capture_t) :
    (dstep sN cN st tk).semi = sN st.semi tk.1 := by
  unfold dstep
  dsimp only
  split
  · rfl
  · split
    · split
      · rfl
      · rfl
    · rfl

/-- Helper: every branch of the token-loop step advances the comma
classifier by exactly one transition. -/
theorem dstep_comma
    (sN cN : data_format_state_t → data_token_t → data_format_state_t)
    (st : DState) (tk : data_token_t × capture_t) :
    (dstep sN cN st tk).comma = cN st.comma tk.1 := by
  unfold dstep
  dsimp only
  split
  · rfl
  · split
    · split
      · rfl
      · rfl
    · rfl

/-- Helper: every branch of the token-loop step bumps the histogram at
the token's kind. -/
theorem dstep_hist
    (sN cN : data_format_state_t → data_token_t → data_format_state_t)
    (st : DState) (tk : data_token_t × capture_t) (t : data_token_t) :
    (dstep sN cN st tk).hist t =
      if t = tk.1 then st.hist t + 1 else st.hist t := by
  unfold dstep
  dsimp only
  split
  · rfl
  · split
    · split
      · rfl
      · rfl
    · rfl

/-- Helper: over the whole loop, the semicolon classifier is the plain
fold of its transition function over the token kinds. -/
theorem dfold_semi
    (sN cN : data_format_state_t → data_token_t → data_format_state_t) :
    ∀ (toks : List (data_token_t × capture_t)) (st : DState),
      (toks.foldl (dstep sN cN) st).semi =
        toks.foldl (fun s tk => sN s tk.1) st.semi
  | [], st => rfl
  | tk :: ts, st => by
      simp only [List.foldl_cons]
      rw [dfold_semi sN cN ts, dstep_semi]

/-- Helper: over the whole loop, the comma classifier is the plain fold
of its transition function over the token kinds. -/
theorem dfold_comma
    (sN cN : data_format_state_t → data_token_t → data_format_state_t) :
    ∀ (toks : List (data_token_t × capture_t)) (st : DState),
      (toks.foldl (dstep sN cN) st).comma =
        toks.foldl (fun s tk => cN s tk.1) st.comma
  | [], st => rfl
  | tk :: ts, st => by
      simp only [List.foldl_cons]
      rw [dfold_comma sN cN ts, dstep_comma]

/-- Helper: over the whole loop, the DT_SEMI histogram cell counts the
DT_SEMI tokens. -/
theorem dfold_hist
    (sN cN : data_format_state_t → data_token_t → data_format_state_t) :
    ∀ (toks : List (data_token_t × capture_t)) (st : DState),
      (toks.foldl (dstep sN cN) st).hist DT_SEMI =
        st.hist DT_SEMI +
          toks.countP (fun tk => decide (tk.1 = DT_SEMI))
  | [], st => by simp
  | tk :: ts, st => by
      simp only [List.foldl_cons, List.countP_cons]
      rw [dfold_hist sN cN ts, dstep_hist]
      by_cases h : tk.1 = DT_SEMI
      · simp [h]
        omega
      · have h2 : ¬ DT_SEMI = tk.1 := fun hh => h hh.symm
        simp [h, h2]

/-- C1: the final format decision of discover_format.  SEMI is chosen
exactly when the semicolon classifier ends in a non-Error state and at
least one DT_SEMI token was observed; failing that, COMMA exactly when
the comma classifier ends in a non-Error state; failing both, PLAIN. -/
theorem claim1_format_decision
    (sN cN : data_format_state_t → data_token_t → data_format_state_t)
    (toks : List (data_token_t × capture_t)) :
    ((discover_format sN cN toks).fsel = FSEMI ↔
      (¬ toks.foldl (fun s tk => sN s tk.1) DFS_INIT = DFS_ERROR ∧
       0 < toks.countP (fun tk => decide (tk.1 = DT_SEMI)))) ∧
    (¬ (¬ toks.foldl (fun s tk => sN s tk.1) DFS_INIT = DFS_ERROR ∧
        0 < toks.countP (fun tk => decide (tk.1 = DT_SEMI))) →
      ((discover_format sN cN toks).fsel = FCOMMA ↔
        ¬ toks.foldl (fun s tk => cN s tk.1) DFS_INIT = DFS_ERROR)) ∧
    (¬ (¬ toks.foldl (fun s tk => sN s tk.1) DFS_INIT = DFS_ERROR ∧
        0 < toks.countP (fun tk => decide (tk.1 = DT_SEMI))) →
      toks.foldl (fun s tk => cN s tk.1) DFS_INIT = DFS_ERROR →
      (discover_format sN cN toks).fsel = FPLAIN) := by
  have hsel : (discover_format sN cN toks).fsel =
      (if ¬ toks.foldl (fun s tk => sN s tk.1) DFS_INIT = DFS_ERROR ∧
          0 < toks.countP (fun tk => decide (tk.1 = DT_SEMI)) then FSEMI
       else if ¬ toks.foldl (fun s tk => cN s tk.1) DFS_INIT = DFS_ERROR
       then FCOMMA
       else FPLAIN) := by
    show (if ¬ (toks.foldl (dstep sN cN) dinit).semi = DFS_ERROR ∧
          0 < (toks.foldl (dstep sN cN) dinit).hist DT_SEMI then FSEMI
        else if ¬ (toks.foldl (dstep sN cN) dinit).comma = DFS_ERROR
        then FCOMMA
        else FPLAIN) = _
    rw [dfold_semi sN cN toks dinit, dfold_comma sN cN toks dinit,
      dfold_hist sN cN toks dinit]
    simp [dinit]
    rw [Nat.zero_add]
  rw [hsel]
  by_cases h1 : ¬ toks.foldl (fun s tk => sN s tk.1) DFS_INIT = DFS_ERROR ∧
      0 < toks.countP (fun tk => decide (tk.1 = DT_SEMI))
  · rw [if_pos h1]
    exact ⟨iff_of_true rfl h1, fun hn => absurd h1 hn, fun hn => absurd h1 hn⟩
  · rw [if_neg h1]
    by_cases h2 : ¬ toks.foldl (fun s tk => cN s tk.1) DFS_INIT = DFS_ERROR
    · rw [if_pos h2]
      exact ⟨Iff.intro (fun hf => absurd hf (by decide))
          (fun hc => absurd hc h1),
        fun _ => iff_of_true rfl h2,
        fun _ hc => absurd hc h2⟩
    · rw [if_neg h2]
      exact ⟨Iff.intro (fun hf => absurd hf (by decide))
          (fun hc => absurd hc h1),
        fun _ => Iff.intro (fun hf => absurd hf (by decide))
          (fun hc => absurd hc h2),
        fun _ _ => rfl⟩

/-- Witness for C1: a single WORD token under never-erroring classifier
transitions has no DT_SEMI token, so COMMA is chosen. -/
theorem claim1_witness :
    (discover_format (fun s _ => s) (fun s _ => s)
        [(DT_WORD, ⟨0, 1⟩)]).fsel = FCOMMA :=
  ((claim1_format_decision (fun s _ => s) (fun s _ => s)
      [(DT_WORD, ⟨0, 1⟩)]).2.1 (by decide)).mpr (by decide)

/-- Helper: group counting distributes over append. -/
theorem countGroupsL_append :
    ∀ a b : List element,
      countGroupsL (a ++ b) = countGroupsL a + countGroupsL b
  | [], b => by simp [countGroupsL]
  | e :: a, b => by
      show countGroupsE e + countGroupsL (a ++ b) =
        countGroupsE e + countGroupsL a + countGroupsL b
      rw [countGroupsL_append a b]
      omega

/-- Helper: wrapping a non-empty level as a group adds exactly one group
node. -/
theorem countGroupsE_mkGroup (e : element) (rest : List element) :
    countGroupsE (mkNode DNT_GROUP true (e :: rest)) =
      1 + countGroupsL (e :: rest) := by
  simp [mkNode, countGroupsE]

/-- Helper: a close step adds at most one group node. -/
theorem closeLevel_le (next top : List element) :
    countGroupsL (closeLevel next top) ≤
      countGroupsL next + countGroupsL top + 1 := by
  unfold closeLevel
  split
  · omega
  · next htop =>
      cases top with
      | nil => exact absurd rfl htop
      | cons e r =>
          rw [countGroupsL_append]
          simp only [countGroupsL, countGroupsE_mkGroup]
          omega

/-- Helper: appending a group-free leaf to the innermost level keeps the
group count and the level count. -/
theorem pushLeaf_groups (s : DState) (e : element)
    (hne : ¬ s.group_stack = []) (he : countGroupsE e = 0) :
    ¬ (pushLeaf s e).group_stack = [] ∧
    countGroupsLL (pushLeaf s e).group_stack +
        (pushLeaf s e).group_stack.length =
      countGroupsLL s.group_stack + s.group_stack.length := by
  unfold pushLeaf
  rcases hstack : s.group_stack with _ | ⟨top, rest⟩
  · exact absurd hstack hne
  · refine ⟨by simp, ?_⟩
    simp only [countGroupsLL, countGroupsL_append, countGroupsL,
      List.length_cons, he]
    omega

/-- Helper: one token-loop step never empties the level stack, and the
group count plus open-level count grows by at most one, and only on an
opening bracket. -/
theorem dstep_groups
    (sN cN : data_format_state_t → data_token_t → data_format_state_t)
    (st : DState) (tk : data_token_t × capture_t)
    (hne : ¬ st.group_stack = []) (htk : ¬ tk.1 = DNT_GROUP) :
    ¬ (dstep sN cN st tk).group_stack = [] ∧
    countGroupsLL (dstep sN cN st tk).group_stack +
        (dstep sN cN st tk).group_stack.length ≤
      countGroupsLL st.group_stack + st.group_stack.length +
        (if isOpener tk.1 then 1 else 0) := by
  have helem : countGroupsE (element.mk tk.2 tk.1 []) = 0 := by
    simp [countGroupsE, countGroupsL, htk]
  unfold dstep
  dsimp only
  split
  · refine ⟨by simp, ?_⟩
    simp only [countGroupsLL, countGroupsL, List.length_cons]
    omega
  · split
    · split
      · rcases hstack : st.group_stack with _ | ⟨top, rest⟩
        · exact absurd hstack hne
        · rcases rest with _ | ⟨nxt, rest2⟩
          · refine ⟨by simp, ?_⟩
            simp only [countGroupsLL, List.length_cons]
            omega
          · refine ⟨by simp, ?_⟩
            have hc := closeLevel_le nxt top
            simp only [countGroupsLL, List.length_cons]
            omega
      · obtain ⟨h1, h2⟩ := pushLeaf_groups
          { group_token := st.group_token, group_stack := st.group_stack,
            semi := sN st.semi tk.1, comma := cN st.comma tk.1,
            hist := fun t => if t = tk.1 then st.hist t + 1 else st.hist t }
          (element.mk tk.2 tk.1 []) hne helem
        dsimp only at h2
        exact ⟨h1, by omega⟩
    · obtain ⟨h1, h2⟩ := pushLeaf_groups
        { group_token := st.group_token, group_stack := st.group_stack,
          semi := sN st.semi tk.1, comma := cN st.comma tk.1,
          hist := fun t => if t = tk.1 then st.hist t + 1 else st.hist t }
        (element.mk tk.2 tk.1 []) hne helem
      dsimp only at h2
      exact ⟨h1, by omega⟩

/-- Helper: over the whole token loop, groups plus open levels are
bounded by the initial measure plus the number of opening brackets. -/
theorem dfold_groups
    (sN cN : data_format_state_t → data_token_t → data_format_state_t) :
    ∀ (toks : List (data_token_t × capture_t)) (st : DState),
      ¬ st.group_stack = [] → (∀ tk ∈ toks, ¬ tk.1 = DNT_GROUP) →
      ¬ (toks.foldl (dstep sN cN) st).group_stack = [] ∧
      countGroupsLL (toks.foldl (dstep sN cN) st).group_stack +
          (toks.foldl (dstep sN cN) st).group_stack.length ≤
        countGroupsLL st.group_stack + st.group_stack.length +
          countOpeners toks
  | [], st => by
      intro hne _
      exact ⟨hne, by simp [countOpeners]⟩
  | tk :: ts, st => by
      intro hne htoks
      simp only [List.foldl_cons]
      obtain ⟨h1, h2⟩ := dstep_groups sN cN st tk hne
        (htoks tk (by simp))
      obtain ⟨g1, g2⟩ := dfold_groups sN cN ts (dstep sN cN st tk) h1
        (fun t ht => htoks t (by simp [ht]))
      refine ⟨g1, ?_⟩
      have hcount : countOpeners (tk :: ts) =
          countOpeners ts + (if isOpener tk.1 then 1 else 0) := by
        simp [countOpeners, List.countP_cons]
      rw [hcount]
      omega

/-- Helper: the force-close fold adds at most one group per closed
level. -/
theorem forceCloseAcc_le :
    ∀ (ls : List (List element)) (acc : List element),
      countGroupsL (forceCloseAcc acc ls) ≤
        countGroupsL acc + countGroupsLL ls + ls.length
  | [], acc => by
      simp [forceCloseAcc]
  | lvl :: rest, acc => by
      have hrec := forceCloseAcc_le rest (closeLevel lvl acc)
      have hstep := closeLevel_le lvl acc
      simp only [forceCloseAcc, countGroupsLL, List.length_cons]
      omega

/-- C8 counterexample: an unterminated opening parenthesis is
force-closed at end of input into a DNT_GROUP wrapping its contents, so
the output holds one Group although the input has zero matched,
kind-correct bracket pairs — and the unmatched bracket's contents DO
appear wrapped in a Group. -/
theorem claim8_counterexample :
    (discover_format (fun s _ => s) (fun s _ => s)
        [(DT_LPAREN, ⟨0, 1⟩), (DT_WORD, ⟨1, 2⟩)]).top =
      [element.mk ⟨1, 2⟩ DNT_GROUP [element.mk ⟨1, 2⟩ DT_WORD []]] ∧
    countGroupsL (discover_format (fun s _ => s) (fun s _ => s)
        [(DT_LPAREN, ⟨0, 1⟩), (DT_WORD, ⟨1, 2⟩)]).top = 1 ∧
    matchedPairs [(DT_LPAREN, ⟨0, 1⟩), (DT_WORD, ⟨1, 2⟩)] = 0 := by
  exact ⟨by decide, by decide, by decide⟩

/-- C8 amended: for every scanner token stream (no token is itself a
group node), the number of Group nodes in the resulting element tree
never exceeds the number of OPENING bracket tokens in the input; matched
pairs and force-closed unterminated openers both produce groups, while a
mismatched closing bracket never does (it is appended as a plain
leaf). -/
theorem claim8_amended
    (sN cN : data_format_state_t → data_token_t → data_format_state_t)
    (toks : List (data_token_t × capture_t))
    (htoks : ∀ tk ∈ toks, ¬ tk.1 = DNT_GROUP) :
    countGroupsL (discover_format sN cN toks).top ≤ countOpeners toks := by
  obtain ⟨h1, h2⟩ := dfold_groups sN cN toks dinit (by simp [dinit]) htoks
  rcases hstack : (toks.foldl (dstep sN cN) dinit).group_stack
    with _ | ⟨top, rest⟩
  · exact absurd hstack h1
  · have htop : (discover_format sN cN toks).top = forceCloseAcc top rest := by
      simp [discover_format, hstack, forceClose]
    rw [htop]
    have hfc := forceCloseAcc_le rest top
    rw [hstack] at h2
    simp only [countGroupsLL, List.length_cons, dinit] at h2
    simp only [countGroupsLL, countGroupsL, List.length_nil] at h2
    omega

/-- Witness for C8 at a concrete matched-parenthesis stream. -/
theorem claim8_amended_witness :
    countGroupsL (discover_format (fun s _ => s) (fun s _ => s)
        [(DT_LPAREN, ⟨0, 1⟩), (DT_NUMBER, ⟨1, 2⟩),
         (DT_RPAREN, ⟨2, 3⟩)]).top ≤
      countOpeners [(DT_LPAREN, ⟨0, 1⟩), (DT_NUMBER, ⟨1, 2⟩),
        (DT_RPAREN, ⟨2, 3⟩)] :=
  claim8_amended (fun s _ => s) (fun s _ => s)
    [(DT_LPAREN, ⟨0, 1⟩), (DT_NUMBER, ⟨1, 2⟩), (DT_RPAREN, ⟨2, 3⟩)]
    (by decide)

/-- Helper: the strings fed to the hash by the merge stage are exactly
the key texts of the merged pairs, in pair order. -/
theorem mergeStack_feeds (input : List Char) :
    ∀ l : List element,
      (mergeStack input l).feeds =
        (mergeStack input l).pairs.map (keyTextOf input)
  | [] => by simp [mergeStack]
  | [e] => by
      by_cases h : e.e_token = DNT_VALUE <;> simp [mergeStack, h]
  | e :: v :: rest => by
      by_cases hk : e.e_token = DNT_KEY
      · by_cases hv : v.e_token = DNT_VALUE
        · simp [mergeStack, hk, hv, mergeStack_feeds input rest,
            keyTextOf, mkNode, element.e_sub_elements]
        · simp only [mergeStack, hk, hv, if_true, if_false, ite_false,
            ite_true]
          exact mergeStack_feeds input (v :: rest)
      · by_cases hv : e.e_token = DNT_VALUE
        · simp [mergeStack, hk, hv, mergeStack_feeds input (v :: rest)]
        · simp [mergeStack, hk, hv, mergeStack_feeds input (v :: rest)]

/-- Helper: when the collapse stage does not fire (its prefix output is
empty), it passes everything through unchanged. -/
theorem collapseStage_cases (pairs fr : List element)
    (feeds : List (List Char)) :
    collapseStage pairs fr feeds = ⟨pairs, fr, [], feeds⟩ ∨
    ¬ (collapseStage pairs fr feeds).pfx = [] := by
  unfold collapseStage
  split
  · split
    · left
      rfl
    · dsimp only
      split
      · right
        simp
      · left
        rfl
  · left
    rfl

/-- Helper: when the merge stage produced at least one pair and the
single-pair collapse does not fire, the final output is exactly the
merged pairs with the merged feeds (promotion and prefix are skipped). -/
theorem pairup_no_collapse (input : List Char) (fmt : data_format)
    (l : List element)
    (hm : ¬ (mergedOf input fmt l).pairs = [])
    (hc : (collapsedOf input fmt l).pfx = []) :
    pairup input fmt l =
      ⟨(mergedOf input fmt l).pairs, (mergedOf input fmt l).feeds⟩ := by
  have hcases := collapseStage_cases (mergedOf input fmt l).pairs
    ((flushStage (runLoop fmt (processList input fmt l))).2 ++
      (mergedOf input fmt l).free)
    (mergedOf input fmt l).feeds
  have hcol : collapsedOf input fmt l =
      ⟨(mergedOf input fmt l).pairs,
       (flushStage (runLoop fmt (processList input fmt l))).2 ++
         (mergedOf input fmt l).free,
       [], (mergedOf input fmt l).feeds⟩ := by
    rcases hcases with he | hne
    · exact he
    · exact absurd hc hne
  have hp : pairup input fmt l =
      promoteStage input (collapsedOf input fmt l) := rfl
  rw [hp, hcol]
  simp [promoteStage, hm]

/-- C7 counterexample: the lines `foo` and `bar`, each scanned as an
IPv4 address plus a word, produce identical pair lists (one blank-keyed
pair around the address, identical key text, order and count), yet their
hash feeds differ — the non-promoted word feeds its text to the digest,
so the SchemaIds differ although the pairs' key text is identical. -/
theorem claim7_counterexample :
    ((pairup ['f', 'o', 'o'] FORMAT_COMMA
        [element.mk ⟨4, 11⟩ DT_IPV4_ADDRESS [],
         element.mk ⟨0, 3⟩ DT_WORD []]).pairs.map
      (keyTextOf ['f', 'o', 'o'])) =
      ((pairup ['b', 'a', 'r'] FORMAT_COMMA
        [element.mk ⟨4, 11⟩ DT_IPV4_ADDRESS [],
         element.mk ⟨0, 3⟩ DT_WORD []]).pairs.map
      (keyTextOf ['b', 'a', 'r'])) ∧
    (pairup ['f', 'o', 'o'] FORMAT_COMMA
        [element.mk ⟨4, 11⟩ DT_IPV4_ADDRESS [],
         element.mk ⟨0, 3⟩ DT_WORD []]).pairs =
      (pairup ['b', 'a', 'r'] FORMAT_COMMA
        [element.mk ⟨4, 11⟩ DT_IPV4_ADDRESS [],
         element.mk ⟨0, 3⟩ DT_WORD []]).pairs ∧
    ¬ (pairup ['f', 'o', 'o'] FORMAT_COMMA
        [element.mk ⟨4, 11⟩ DT_IPV4_ADDRESS [],
         element.mk ⟨0, 3⟩ DT_WORD []]).feeds =
      (pairup ['b', 'a', 'r'] FORMAT_COMMA
        [element.mk ⟨4, 11⟩ DT_IPV4_ADDRESS [],
         element.mk ⟨0, 3⟩ DT_WORD []]).feeds := by
  exact ⟨by decide, by decide, by decide⟩

/-- C7 amended: schema stability holds for lines whose pairs come from
the merge stage: if both parses produced at least one merged pair and
the single-pair collapse fired in neither, then identical key text in
identical order and count forces identical hash feeds (hence identical
SchemaId), regardless of value content. -/
theorem claim7_amended (inp1 inp2 : List Char) (fmt1 fmt2 : data_format)
    (l1 l2 : List element)
    (hm1 : ¬ (mergedOf inp1 fmt1 l1).pairs = [])
    (hc1 : (collapsedOf inp1 fmt1 l1).pfx = [])
    (hm2 : ¬ (mergedOf inp2 fmt2 l2).pairs = [])
    (hc2 : (collapsedOf inp2 fmt2 l2).pfx = [])
    (hkeys : (pairup inp1 fmt1 l1).pairs.map (keyTextOf inp1) =
             (pairup inp2 fmt2 l2).pairs.map (keyTextOf inp2)) :
    (pairup inp1 fmt1 l1).feeds = (pairup inp2 fmt2 l2).feeds := by
  rw [pairup_no_collapse inp1 fmt1 l1 hm1 hc1,
    pairup_no_collapse inp2 fmt2 l2 hm2 hc2] at hkeys ⊢
  have hf1 : (mergedOf inp1 fmt1 l1).feeds =
      (mergedOf inp1 fmt1 l1).pairs.map (keyTextOf inp1) :=
    mergeStack_feeds inp1 _
  have hf2 : (mergedOf inp2 fmt2 l2).feeds =
      (mergedOf inp2 fmt2 l2).pairs.map (keyTextOf inp2) :=
    mergeStack_feeds inp2 _
  simp only [] at hkeys ⊢
  rw [hf1, hf2]
  simpa using hkeys

/-- Witness for C7: the lines `a,1` and `a,2` merge one pair each with
key text `a`, and their schema feeds agree. -/
theorem claim7_amended_witness :
    (pairup ['a', ',', '1'] FORMAT_COMMA
        [element.mk ⟨0, 1⟩ DT_WORD [], element.mk ⟨1, 2⟩ DT_SEPARATOR [],
         element.mk ⟨2, 3⟩ DT_NUMBER []]).feeds =
      (pairup ['a', ',', '2'] FORMAT_COMMA
        [element.mk ⟨0, 1⟩ DT_WORD [], element.mk ⟨1, 2⟩ DT_SEPARATOR [],
         element.mk ⟨2, 3⟩ DT_NUMBER []]).feeds :=
  claim7_amended ['a', ',', '1'] ['a', ',', '2'] FORMAT_COMMA FORMAT_COMMA
    [element.mk ⟨0, 1⟩ DT_WORD [], element.mk ⟨1, 2⟩ DT_SEPARATOR [],
     element.mk ⟨2, 3⟩ DT_NUMBER []]
    [element.mk ⟨0, 1⟩ DT_WORD [], element.mk ⟨1, 2⟩ DT_SEPARATOR [],
     element.mk ⟨2, 3⟩ DT_NUMBER []]
    (by decide) (by decide) (by decide) (by decide) (by decide)
